import Mathlib

/-!
Verification of the mandelbrot-animation core (mandelbrot_animation.py).

The numeric kernel is embedded with exact rationals for the grid and the
complex iteration (the source uses IEEE doubles; the grid and loop
arithmetic is idealised to exact arithmetic), and with an explicit
extended-value type FV for the post-processing chain
255 * floor(iterations - log2(log10(1 + abs z))) / iterations,
whose log2/log10/floor/division steps follow the IEEE special-value rules
numpy applies: log10 of 0 is -Inf, log of a negative is NaN, a finite value
minus -Inf is +Inf, floor of an infinity is that infinity, and so on.
The GIF encoder is embedded at the byte level as lists of naturals.
-/

/-- Extended numeric value: a finite real, plus the IEEE special values
+Inf, -Inf and NaN that numpy propagates through the colouring formula. -/
inductive FV where
  | fin (x : ℝ)
  | pinf
  | ninf
  | nan

/-- A value is a usable palette index when it is finite and within 0..255. -/
def FV.inRange255 : FV → Prop
  | .fin x => 0 ≤ x ∧ x ≤ 255
  | .pinf => False
  | .ninf => False
  | .nan => False

/-- numpy.log10 on a nonnegative argument chain: log10 of a negative input
is NaN, log10 of 0 is -Inf, otherwise the finite real logarithm. -/
noncomputable def log10v (x : ℝ) : FV :=
  if x < 0 then .nan else if x = 0 then .ninf else .fin (Real.logb 10 x)

/-- numpy.log2 applied to an extended value: log2 of -Inf or NaN is NaN,
log2 of +Inf is +Inf, log2 of 0 is -Inf, log2 of a negative is NaN. -/
noncomputable def FV.log2v : FV → FV
  | .fin x => if x < 0 then .nan else if x = 0 then .ninf else .fin (Real.logb 2 x)
  | .pinf => .pinf
  | .ninf => .nan
  | .nan => .nan

/-- iterations - v in IEEE arithmetic: a finite value minus -Inf is +Inf,
minus +Inf is -Inf, minus NaN is NaN. -/
def FV.subI (n : ℤ) : FV → FV
  | .fin x => .fin ((n : ℝ) - x)
  | .pinf => .ninf
  | .ninf => .pinf
  | .nan => .nan

/-- numpy.floor on an extended value: infinities and NaN pass through. -/
noncomputable def FV.floorF : FV → FV
  | .fin x => .fin ((⌊x⌋ : ℤ) : ℝ)
  | .pinf => .pinf
  | .ninf => .ninf
  | .nan => .nan

/-- Multiplication by the positive constant 255 (sign-preserving on
infinities, NaN-preserving). -/
def FV.mul255 : FV → FV
  | .fin x => .fin (255 * x)
  | .pinf => .pinf
  | .ninf => .ninf
  | .nan => .nan

/-- IEEE division of an extended value by the integer iteration count:
division of a finite nonzero value by 0 gives a signed infinity, 0/0 gives
NaN, an infinity divided by a negative flips sign. -/
noncomputable def FV.divI (v : FV) (d : ℤ) : FV :=
  match v with
  | .fin x =>
      if d = 0 then (if x < 0 then .ninf else if x = 0 then .nan else .pinf)
      else .fin (x / (d : ℝ))
  | .pinf => if d < 0 then .ninf else .pinf
  | .ninf => if d < 0 then .pinf else .ninf
  | .nan => .nan

/-- numpy.linspace(a, b, n) evaluated at index i: for n at most 1 the single
sample is a, otherwise a + i * (b - a) / (n - 1). -/
def linspace (a b : ℚ) (n : ℕ) (i : ℕ) : ℚ :=
  if n ≤ 1 then a else a + (i : ℚ) * (b - a) / ((n : ℚ) - 1)

/-- Complex multiplication on rational pairs (re, im). -/
def qcMul (u v : ℚ × ℚ) : ℚ × ℚ :=
  (u.1 * v.1 - u.2 * v.2, u.1 * v.2 + u.2 * v.1)

/-- Complex addition on rational pairs. -/
def qcAdd (u v : ℚ × ℚ) : ℚ × ℚ :=
  (u.1 + v.1, u.2 + v.2)

/-- Complex absolute value of a rational pair, as a real. -/
noncomputable def qcAbs (z : ℚ × ℚ) : ℝ :=
  Real.sqrt (((z.1 : ℝ)) ^ 2 + ((z.2 : ℝ)) ^ 2)

/-- The grid coordinate c = x + i*y of row i, column j:
x = linspace(left, right, width)[j], y = linspace(top, bottom, height)[i],
exactly the meshgrid built on lines 85-87 of the source. -/
def cGrid (w h : ℕ) (l r t b : ℚ) (i j : ℕ) : ℚ × ℚ :=
  (linspace l r w j, linspace t b h i)

/-- The source loop, line 91-93: for n in range(iterations): z *= z; z += c,
run on a start value z0. -/
def zLoop (c z0 : ℚ × ℚ) (n : ℕ) : ℚ × ℚ :=
  (List.range n).foldl (fun z _ => qcAdd (qcMul z z) c) z0

/-- The final z of the grid point (i, j): the loop is entered with z set to
the seed z0 (line 88-89: z = c.copy(); z[:] = z0), and Python range turns a
nonpositive iteration count into an empty loop. -/
def drawZ (w h : ℕ) (l r t b : ℚ) (it : ℤ) (z0 : ℚ) (i j : ℕ) : ℚ × ℚ :=
  zLoop (cGrid w h l r t b i j) (z0, 0) it.toNat

/-- One pixel of the fractal array, line 94-95 of the source:
255 * floor(iterations - log2(log10(1 + abs(z)))) / iterations,
computed with the IEEE special-value rules of FV. No clamping is applied. -/
noncomputable def mandelPixel (w h : ℕ) (l r t b : ℚ) (it : ℤ) (z0 : ℚ) (i j : ℕ) : FV :=
  FV.divI
    (FV.mul255 (FV.floorF (FV.subI it
      (FV.log2v (log10v (1 + qcAbs (drawZ w h l r t b it z0 i j))))))) it

/-- The raster draw_mandelbrot returns: width, height and the grid of raw
(unclamped) pixel values. -/
structure FRaster where
  width : ℕ
  height : ℕ
  pix : List (List FV)

/-- draw_mandelbrot (lines 80-96): the full raster of raw pixel values. -/
noncomputable def draw_mandelbrot (w h : ℕ) (l r t b : ℚ) (it : ℤ) (z0 : ℚ) : FRaster :=
  ⟨w, h, (List.range h).map (fun i => (List.range w).map (fun j =>
    mandelPixel w h l r t b it z0 i j))⟩

/-- numpy.arange(start, stop, step) for a nonzero step: the
ceil((stop - start) / step) values start + k * step, none when that count
is nonpositive. -/
def arangeQ (start stop step : ℚ) : List ℚ :=
  (List.range (⌈(stop - start) / step⌉).toNat).map (fun (k : ℕ) => start + (k : ℚ) * step)

/-- The seed sweep of generate_mandelbrot_animation, line 103 of the source:
numpy.arange(start_z0, end_z0 + step_z0, step_z0). -/
def z0sweep (start_z0 end_z0 step_z0 : ℚ) : List ℚ :=
  arangeQ start_z0 (end_z0 + step_z0) step_z0

/-- The failures the design names, plus the ZeroDivisionError numpy.arange
raises for a zero step. InvalidParams never occurs in the code; it is
carried so that its absence can be stated. -/
inductive AppError where
  | invalidParams
  | zeroDivisionError
  | emptyAnimation
deriving DecidableEq

/-- numpy.arange raises ZeroDivisionError when the step is zero (its length
computation divides by the step); modelled from the documented behaviour of
the library the source calls. -/
def arangeE (start stop step : ℚ) : Except AppError (List ℚ) :=
  if step = 0 then .error .zeroDivisionError else .ok (arangeQ start stop step)

/-- The request parameters MandelbrotHandler.get parses on lines 125-136.
The iteration count is a Python int and may be nonpositive. -/
structure ReqParams where
  left : ℚ
  right : ℚ
  top : ℚ
  bottom : ℚ
  iterations : ℤ
  width : ℕ
  height : ℕ
  start_z0 : ℚ
  end_z0 : ℚ
  step_z0 : ℚ

/-- The per-frame render function fn built on lines 104-106:
functools.partial(draw_mandelbrot, width, ..., iterations) applied to one
swept seed. -/
noncomputable def frameFn (p : ReqParams) (z0 : ℚ) : FRaster :=
  draw_mandelbrot p.width p.height p.left p.right p.top p.bottom p.iterations z0

/-- generate_mandelbrot_animation (lines 99-118) as the sequence its
consumer observes: the frames for each swept seed in sweep order, or the
error the first pull raises when the step is zero. The generator body runs
lazily; the Except value is its observable outcome. -/
noncomputable def generate_mandelbrot_animation (p : ReqParams) :
    Except AppError (List FRaster) :=
  match arangeE p.start_z0 (p.end_z0 + p.step_z0) p.step_z0 with
  | .error e => .error e
  | .ok z0s => .ok (z0s.map (frameFn p))

/-- The worker pool results in completion order: the workers may finish in
any order σ over the submission indices; worker i computes the frame of
seed number i. -/
noncomputable def poolResults (p : ReqParams) (z0s : List ℚ) (σ : List ℕ) :
    List (ℕ × FRaster) :=
  σ.map (fun i => (i, frameFn p (z0s.getD i 0)))

/-- The order-restoring buffer lookup: the completed result of submission
index j, wherever the completion order put it. -/
def poolLookup {β : Type} (j : ℕ) : List (ℕ × β) → Option β
  | [] => none
  | e :: rest => if e.1 = j then some e.2 else poolLookup j rest

/-- The sequential fallback path, line 117: itertools.imap(fn, z0s). -/
noncomputable def framesSequential (p : ReqParams) : List FRaster :=
  (z0sweep p.start_z0 p.end_z0 p.step_z0).map (frameFn p)

/-- The parallel path, lines 109-115: executor.map semantics. Frames are
submitted in sweep order, completed in an arbitrary order σ, and yielded to
the consumer strictly in submission order 0, 1, 2, ... -/
noncomputable def framesParallel (p : ReqParams) (σ : List ℕ) : List (Option FRaster) :=
  (List.range (z0sweep p.start_z0 p.end_z0 p.step_z0).length).map
    (fun j => poolLookup j (poolResults p (z0sweep p.start_z0 p.end_z0 p.step_z0) σ))

/-- A concrete two-frame request used to instantiate the pipeline theorem. -/
def paramsC2 : ReqParams := ⟨0, 0, 0, 0, 1, 1, 1, 0, 1, 1⟩

/-- A concrete request with a zero seed step. -/
def paramsZeroStep : ReqParams := ⟨0, 0, 0, 0, 1, 1, 1, -3, 3, 0⟩

/-- Byte of a converted pixel: on the way from the float image to palette
mode, PIL converts to mode L by truncating toward zero and clamping into
0..255; the infinities clamp to the nearest bound and NaN becomes 0.
Modelled from the conversion contract of the imaging library the source
calls. -/
noncomputable def FV.toByte : FV → ℕ
  | .fin x => (min 255 (max 0 (if 0 ≤ x then ⌊x⌋ else ⌈x⌉))).toNat
  | .pinf => 255
  | .ninf => 0
  | .nan => 0

/-- A palette-mode raster: byte pixels plus the palette the conversion
attached to the image. -/
structure PRaster where
  width : ℕ
  height : ℕ
  pix : List (List ℕ)
  pal : List (ℕ × ℕ × ℕ)

/-- The 256-entry grayscale palette the L-to-P conversion path attaches.
Modelled from the imaging library contract. -/
def grayPalette : List (ℕ × ℕ × ℕ) :=
  (List.range 256).map (fun i => (i, i, i))

/-- image.convert to palette mode, line 44 of the source. -/
noncomputable def convertP (f : FRaster) : PRaster :=
  ⟨f.width, f.height, f.pix.map (List.map FV.toByte), grayPalette⟩

/-- The same raster with its palette replaced. -/
def setPal (im : PRaster) (pal : List (ℕ × ℕ × ℕ)) : PRaster :=
  ⟨im.width, im.height, im.pix, pal⟩

/-- struct.pack of an unsigned little-endian 16-bit value; struct.pack
raises outside 0..65535, where this model is exact. -/
def pack16 (n : ℕ) : List ℕ :=
  [n % 256, n / 256 % 256]

/-- Little-endian decoding of two bytes. -/
def decode16le (a b : ℕ) : ℕ := a + 256 * b

/-- Python 2 round: half away from zero. -/
def pyRound (x : ℚ) : ℤ :=
  if 0 ≤ x then ⌊x + 1/2⌋ else ⌈x - 1/2⌉

/-- The palette bytes GifImagePlugin.getheader(image)[1] yields: three bytes
per RGB entry. -/
def palBytes (pal : List (ℕ × ℕ × ℕ)) : List ℕ :=
  pal.flatMap (fun e => [e.1, e.2.1, e.2.2])

/-- The application-extension block of lines 58-63: the introducer 21 FF,
block size 0B, the ASCII bytes of NETSCAPE2.0, sub-block size 3, sub-block
id 1, the little-endian loop field 2^16 - 1, and the terminator byte. -/
def appExtBlock : List ℕ :=
  [0x21, 0xFF, 0x0B] ++ [78, 69, 84, 83, 67, 65, 80, 69, 50, 46, 48] ++
    [0x03, 0x01] ++ pack16 (2 ^ 16 - 1) ++ [0x00]

/-- The graphic-control-extension block written before every frame,
lines 66-70: introducer 21 F9, size 4, the packed byte 08, the delay
int(round(delay * 100)) little-endian, the transparent-colour byte 00 and
the terminator 00. -/
def gceBlock (delay : ℚ) : List ℕ :=
  [0x21, 0xF9, 0x04] ++ [0x08] ++ pack16 (pyRound (delay * 100)).toNat ++ [0x00, 0x00]

/-- Disposal-method field of a packed graphic-control byte (bits 2 to 4). -/
def gceDisposal (b : ℕ) : ℕ := b / 4 % 8

/-- Transparent-colour flag of a packed graphic-control byte (bit 0). -/
def gceTransparency (b : ℕ) : ℕ := b % 2

/-- Data sub-blocks: chunks of at most 255 bytes, each preceded by its
length. This frames the LZW body GifImagePlugin.getdata produces; the
compressed bytes themselves are outside every claim, the framing and the
absence of palette data in it are what the claims use. -/
def dataSubBlocks : List ℕ → List ℕ
  | [] => []
  | b :: rest =>
      (min 255 (b :: rest).length) ::
        ((b :: rest).take 255 ++ dataSubBlocks ((b :: rest).drop 255))
termination_by l => l.length
decreasing_by
  simp [List.length_drop]
  omega

/-- GifImagePlugin.getdata(im), line 72: the image descriptor (separator 2C,
zero offsets, the frame size, and a zero flags byte declaring no local
colour table), the minimum-code-size byte 8, the data sub-blocks and a zero
terminator. Modelled from the library contract of getdata. -/
def getdataBytes (im : PRaster) : List ℕ :=
  [0x2C] ++ pack16 0 ++ pack16 0 ++ pack16 im.width ++ pack16 im.height ++
    [0x00] ++ [0x08] ++ dataSubBlocks im.pix.flatten ++ [0x00]

/-- The stream prefix of lines 47-56: signature GIF89a, the 16-bit logical
screen size taken from the first converted frame, the descriptor bytes
87 00 00 declaring a present 256-entry global colour table, and the global
colour table itself, from the first frame's palette. -/
def gifHeaderBytes (im : PRaster) : List ℕ :=
  [71, 73, 70, 56, 57, 97] ++ pack16 im.width ++ pack16 im.height ++
    [0x87, 0x00, 0x00] ++ palBytes im.pal

/-- build_animated_gif (lines 37-77): the frames are converted to palette
mode lazily and the first is pulled; an empty sequence fails before a
single byte is written (StopIteration in the code, EmptyAnimation in the
design taxonomy). Otherwise the header, global palette and application
extension are written once, then one graphic-control extension and one
image-data record per frame, and the trailer byte 3B. The result is the
byte list written to the stream plus the error, if any. -/
noncomputable def build_animated_gif (images : List FRaster) (delay : ℚ) :
    List ℕ × Option AppError :=
  match images.map convertP with
  | [] => ([], some .emptyAnimation)
  | im :: rest =>
      (gifHeaderBytes im ++ appExtBlock ++
        (im :: rest).flatMap (fun fr => gceBlock delay ++ getdataBytes fr) ++ [0x3B],
       none)

/-- MandelbrotHandler.get (lines 121-142): parse the request parameters,
generate the frames and encode them with the default delay of 0.1 seconds.
No parameter validation of any kind is performed before rendering. -/
noncomputable def mandelbrotHandlerGet (p : ReqParams) : List ℕ × Option AppError :=
  match generate_mandelbrot_animation p with
  | .error e => ([], some e)
  | .ok frames => build_animated_gif frames (1/10)

/-- A concrete degenerate request: zero iterations (nonpositive), a
one-pixel grid, and a one-seed sweep. -/
def paramsDegenerate : ReqParams := ⟨0, 0, 0, 0, 0, 1, 1, 0, 0, 1⟩

/-- Folding a constant-step function over List.range n is n-fold iteration. -/
theorem foldl_range_const {α : Type} (f : α → α) (z : α) (n : ℕ) :
    (List.range n).foldl (fun a _ => f a) z = f^[n] z := by
  induction n with
  | zero => rfl
  | succ k ih =>
      rw [List.range_succ, List.foldl_append, ih, Function.iterate_succ_apply']
      rfl

/-- Indexing a mapped range with a default. -/
theorem getD_map_range {α : Type} (f : ℕ → α) (n i : ℕ) (d : α) (h : i < n) :
    ((List.range n).map f).getD i d = f i := by
  simp [List.getD_eq_getElem?_getD, List.getElem?_range h]

/-- C3: in draw_mandelbrot every grid point starts its loop at the per-frame
seed z0 (not zero) and the update z := z*z + c is applied exactly
`iterations` times, with no early-escape test, for every positive iteration
count. -/
theorem c3_seed_and_fixed_iteration (w h : ℕ) (l r t b : ℚ) (it : ℤ) (z0 : ℚ)
    (i j : ℕ) (hit : 0 < it) :
    drawZ w h l r t b it z0 i j =
      (fun z => qcAdd (qcMul z z) (cGrid w h l r t b i j))^[it.toNat] ((z0 : ℚ), (0 : ℚ)) ∧
    ((it.toNat : ℤ) = it) := by
  constructor
  · unfold drawZ zLoop
    exact foldl_range_const _ _ _
  · exact Int.toNat_of_nonneg hit.le

/-- C3 witness: the iteration theorem evaluated at a concrete frame. -/
theorem c3_seed_and_fixed_iteration_witness :
    drawZ 1 1 1 1 0 0 2 0 0 0 =
      (fun z => qcAdd (qcMul z z) (cGrid 1 1 1 1 0 0 0 0))^[(2 : ℤ).toNat] ((0 : ℚ), (0 : ℚ)) ∧
    (((2 : ℤ).toNat : ℤ) = 2) :=
  c3_seed_and_fixed_iteration 1 1 1 1 0 0 2 0 0 0 (by decide)

/-- C1 counterexample: at the valid frame width = height = 3, box
[-1,1] x [-1,1], iterations = 1, seed 0, the centre pixel has c = 0, the
final z is 0, so log10(1+0) = 0, log2 0 = -Inf, and the raster value is
+Inf: it is not a palette index in [0,255] and the Inf is propagated, not
replaced by the sentinel 0. -/
theorem c1_counterexample :
    ((draw_mandelbrot 3 3 (-1) 1 (-1) 1 1 0).pix.getD 1 []).getD 1 (FV.fin 0) = FV.pinf ∧
    ¬ FV.inRange255 (((draw_mandelbrot 3 3 (-1) 1 (-1) 1 1 0).pix.getD 1 []).getD 1 (FV.fin 0)) ∧
    FV.pinf ≠ FV.fin 0 := by
  have hc : cGrid 3 3 (-1) 1 (-1) 1 1 1 = ((0 : ℚ), (0 : ℚ)) := by
    unfold cGrid linspace
    norm_num
  have hz : drawZ 3 3 (-1) 1 (-1) 1 1 0 1 1 = ((0 : ℚ), (0 : ℚ)) := by
    unfold drawZ zLoop
    rw [show (1 : ℤ).toNat = 1 from rfl, show List.range 1 = [0] from rfl]
    simp [hc, qcMul, qcAdd]
  have habs : qcAbs ((0 : ℚ), (0 : ℚ)) = 0 := by
    simp [qcAbs]
  have hpix : mandelPixel 3 3 (-1) 1 (-1) 1 1 0 1 1 = FV.pinf := by
    unfold mandelPixel
    rw [hz, habs]
    rw [show log10v (1 + 0) = FV.fin (Real.logb 10 1) by
      unfold log10v; norm_num]
    rw [show Real.logb 10 1 = 0 by simp [Real.logb]]
    rw [show FV.log2v (FV.fin 0) = FV.ninf by unfold FV.log2v; norm_num]
    rw [show FV.subI 1 FV.ninf = FV.pinf from rfl]
    rw [show FV.floorF FV.pinf = FV.pinf from rfl]
    rw [show FV.mul255 FV.pinf = FV.pinf from rfl]
    unfold FV.divI
    norm_num
  have hcell :
      ((draw_mandelbrot 3 3 (-1) 1 (-1) 1 1 0).pix.getD 1 []).getD 1 (FV.fin 0) =
        mandelPixel 3 3 (-1) 1 (-1) 1 1 0 1 1 := by
    unfold draw_mandelbrot
    rw [getD_map_range _ 3 1 [] (by norm_num), getD_map_range _ 3 1 (FV.fin 0) (by norm_num)]
  refine ⟨hcell.trans hpix, ?_, fun hcon => FV.noConfusion hcon⟩
  rw [hcell.trans hpix]
  simp [FV.inRange255]

/-- The order-restoring lookup finds the one result a nodup completion order
holds for index j. -/
theorem poolLookup_poolResults (p : ReqParams) (z0s : List ℚ) (σ : List ℕ) (j : ℕ)
    (hmem : j ∈ σ) (hnd : σ.Nodup) :
    poolLookup j (poolResults p z0s σ) = some (frameFn p (z0s.getD j 0)) := by
  induction σ with
  | nil => cases hmem
  | cons a s ih =>
      by_cases hja : a = j
      · subst hja
        simp [poolResults, poolLookup]
      · have hm : j ∈ s := by
          rcases List.mem_cons.mp hmem with h | h
          · exact absurd h.symm hja
          · exact h
        have hrec := ih hm (List.Nodup.of_cons hnd)
        simpa [poolResults, poolLookup, hja] using hrec

/-- Reading a list through getD over the range of its length is mapping. -/
theorem map_range_getD {β : Type} (F : ℚ → β) (z0s : List ℚ) :
    (List.range z0s.length).map (fun j => F (z0s.getD j 0)) = z0s.map F := by
  apply List.ext_getElem
  · simp
  · intro i h1 h2
    simp only [List.getElem_map, List.getElem_range]
    rw [List.getD_eq_getElem]

/-- C2: for every completion order that is a permutation of the submission
indices, the parallel worker-pool path yields exactly the frames of the
sequential fallback path, in submission order, one result per input seed. -/
theorem c2_parallel_equals_sequential (p : ReqParams) (σ : List ℕ)
    (hperm : σ.Perm (List.range (z0sweep p.start_z0 p.end_z0 p.step_z0).length)) :
    framesParallel p σ = (framesSequential p).map some ∧
    (framesParallel p σ).length = (z0sweep p.start_z0 p.end_z0 p.step_z0).length := by
  have hnd : σ.Nodup := hperm.nodup_iff.mpr (List.nodup_range _)
  constructor
  · unfold framesParallel framesSequential
    rw [List.map_map]
    rw [← map_range_getD (some ∘ frameFn p) (z0sweep p.start_z0 p.end_z0 p.step_z0)]
    apply List.map_congr_left
    intro j hj
    have hjm : j ∈ σ := hperm.mem_iff.mpr hj
    simpa using poolLookup_poolResults p _ σ j hjm hnd
  · simp [framesParallel]

/-- C2 witness: a two-frame sweep with the workers finishing in reverse
order still yields the sequential output. -/
theorem c2_parallel_equals_sequential_witness :
    framesParallel paramsC2 [1, 0] = (framesSequential paramsC2).map some ∧
    (framesParallel paramsC2 [1, 0]).length =
      (z0sweep paramsC2.start_z0 paramsC2.end_z0 paramsC2.step_z0).length :=
  c2_parallel_equals_sequential paramsC2 [1, 0] (by
    have hlen : (z0sweep paramsC2.start_z0 paramsC2.end_z0 paramsC2.step_z0).length = 2 := by
      show (arangeQ 0 (1 + 1) 1).length = 2
      unfold arangeQ
      rw [List.length_map, List.length_range]
      rw [show ((1 : ℚ) + 1 - 0) / 1 = ((2 : ℤ) : ℚ) by norm_num]
      rw [Int.ceil_intCast]
      rfl
    rw [hlen]
    decide)

/-- C9 counterexample: sweeping z0 from 0 to 1 by 2/5 produces the seed 6/5,
which lies outside [0, 1]: arange runs to end_z0 + step_z0 exclusive, so the
sweep can overshoot the end value. -/
theorem c9_counterexample :
    (6/5 : ℚ) ∈ z0sweep 0 1 (2/5) ∧ ¬ ((6/5 : ℚ) ≤ 1) := by
  have hls : z0sweep 0 1 (2/5) = [0, 2/5, 4/5, 6/5] := by
    unfold z0sweep arangeQ
    rw [show ((1 : ℚ) + 2/5 - 0) / (2/5) = 7/2 by norm_num]
    rw [show (⌈(7/2 : ℚ)⌉ : ℤ) = 4 by
      rw [Int.ceil_eq_iff]
      constructor <;> norm_num]
    rw [show ((4 : ℤ)).toNat = 4 from rfl]
    rw [show List.range 4 = [0, 1, 2, 3] from rfl]
    simp
    norm_num
  constructor
  · rw [hls]
    simp
  · norm_num

/-- C9 amended: for a positive step every swept seed lies in
[start_z0, end_z0 + step_z0) -- it may overshoot end_z0 by less than one
step -- and end_z0 itself is included whenever it lands exactly on a step. -/
theorem c9_amended_sweep_range (s e step : ℚ) (hstep : 0 < step) :
    (∀ v ∈ z0sweep s e step, s ≤ v ∧ v < e + step) ∧
    ((∃ k : ℕ, e = s + (k : ℚ) * step) → e ∈ z0sweep s e step) := by
  constructor
  · intro v hv
    simp only [z0sweep, arangeQ, List.mem_map, List.mem_range] at hv
    obtain ⟨k, hkn, hkv⟩ := hv
    rw [← hkv]
    constructor
    · have hnn : 0 ≤ (k : ℚ) * step := mul_nonneg (Nat.cast_nonneg k) hstep.le
      linarith
    · have h1 : ((k : ℤ)) < ⌈(e + step - s) / step⌉ := Int.lt_toNat.mp hkn
      have h2 : ((k : ℚ) + 1) ≤ ((⌈(e + step - s) / step⌉ : ℤ) : ℚ) := by
        exact_mod_cast h1
      have h3 : ((⌈(e + step - s) / step⌉ : ℤ) : ℚ) < (e + step - s) / step + 1 :=
        Int.ceil_lt_add_one _
      have h4 : (k : ℚ) < (e + step - s) / step := by linarith
      have h5 : (k : ℚ) * step < e + step - s := (lt_div_iff₀ hstep).mp h4
      linarith
  · rintro ⟨k, hke⟩
    simp only [z0sweep, arangeQ, List.mem_map, List.mem_range]
    refine ⟨k, ?_, hke.symm⟩
    have hx : (e + step - s) / step = (k : ℚ) + 1 := by
      rw [hke, div_eq_iff (ne_of_gt hstep)]
      ring
    rw [hx]
    rw [show ((k : ℚ) + 1) = (((k : ℤ) + 1 : ℤ) : ℚ) by push_cast; ring]
    rw [Int.ceil_intCast]
    omega

/-- C9 witness: the amended sweep bound evaluated at start 0, end 2,
step 1: every seed lies in [0, 3) and the end value 2 is produced. -/
theorem c9_amended_sweep_range_witness :
    (∀ v ∈ z0sweep 0 2 1, (0 : ℚ) ≤ v ∧ v < 2 + 1) ∧
    ((∃ k : ℕ, (2 : ℚ) = 0 + (k : ℚ) * 1) → (2 : ℚ) ∈ z0sweep 0 2 1) :=
  c9_amended_sweep_range 0 2 1 (by norm_num)

/-- C10: a zero step makes the generator fail with the ZeroDivisionError of
numpy.arange as soon as its first element is pulled, and it yields no
frames. -/
theorem c10_zero_step_rejected (p : ReqParams) (h : p.step_z0 = 0) :
    generate_mandelbrot_animation p = .error .zeroDivisionError := by
  unfold generate_mandelbrot_animation arangeE
  rw [h]
  simp

/-- C10 witness: the default sweep with the step forced to zero fails with
ZeroDivisionError. -/
theorem c10_zero_step_rejected_witness :
    generate_mandelbrot_animation paramsZeroStep = .error .zeroDivisionError :=
  c10_zero_step_rejected paramsZeroStep rfl

/-- A converted pixel byte never exceeds 255. -/
theorem FV.toByte_le (v : FV) : v.toByte ≤ 255 := by
  cases v with
  | fin x =>
      show (min 255 (max 0 (if 0 ≤ x then ⌊x⌋ else ⌈x⌉))).toNat ≤ 255
      have h1 : min 255 (max 0 (if 0 ≤ x then ⌊x⌋ else ⌈x⌉)) ≤ (255 : ℤ) := min_le_left _ _
      omega
  | pinf => exact le_refl _
  | ninf => exact Nat.zero_le _
  | nan => exact Nat.zero_le _

/-- The default delay of a tenth of a second rounds to 10 centiseconds. -/
theorem pyRound_default_delay : pyRound ((1 : ℚ)/10 * 100) = 10 := by
  unfold pyRound
  rw [if_pos (by norm_num)]
  rw [show (1 : ℚ)/10 * 100 + 1/2 = 21/2 by norm_num]
  rw [Int.floor_eq_iff]
  constructor <;> norm_num

/-- The encoder result carries either the empty-animation failure or no
failure at all. -/
theorem build_animated_gif_snd (frames : List FRaster) (d : ℚ) :
    (build_animated_gif frames d).2 = some AppError.emptyAnimation ∨
    (build_animated_gif frames d).2 = none := by
  cases frames with
  | nil => left; rfl
  | cons a l => right; rfl

/-- C4: on an empty frame sequence the encoder fails with EmptyAnimation
having written zero bytes: the output sink is untouched. -/
theorem c4_empty_writes_nothing (d : ℚ) :
    build_animated_gif [] d = ([], some AppError.emptyAnimation) := rfl

/-- C7 counterexample: the packed graphic-control byte the encoder writes is
0x08, whose disposal-method field is 2 (restore to background), not the
value 0 that stands for no special disposal. -/
theorem c7_counterexample :
    (gceBlock (1/10)).getD 3 0 = 0x08 ∧ gceDisposal 0x08 = 2 ∧ gceDisposal 0x08 ≠ 0 :=
  ⟨rfl, rfl, by decide⟩

/-- C7 amended: every frame's graphic-control block is the 8-byte sequence
21 F9 04 08, the delay round(delay*100) in little-endian centiseconds, then
00 00; its packed byte has disposal method 2 (restore to background), not
a no-disposal value, and its transparency flag is clear. Valid whenever
round(delay*100) fits an unsigned 16-bit value, where struct.pack does not
raise. -/
theorem c7_amended_gce_bytes (d : ℚ) (h0 : 0 ≤ pyRound (d * 100))
    (h1 : pyRound (d * 100) < 65536) :
    gceBlock d =
      [0x21, 0xF9, 0x04, 0x08] ++ pack16 (pyRound (d * 100)).toNat ++ [0x00, 0x00] ∧
    decode16le ((gceBlock d).getD 4 0) ((gceBlock d).getD 5 0) = (pyRound (d * 100)).toNat ∧
    gceDisposal ((gceBlock d).getD 3 0) = 2 ∧
    gceTransparency ((gceBlock d).getD 3 0) = 0 := by
  have hm : (pyRound (d * 100)).toNat < 65536 := by omega
  have hblock : gceBlock d =
      0x21 :: 0xF9 :: 0x04 :: 0x08 ::
        ((pyRound (d * 100)).toNat % 256) :: ((pyRound (d * 100)).toNat / 256 % 256) ::
        0x00 :: [0x00] := rfl
  refine ⟨rfl, ?_, ?_, ?_⟩
  · rw [hblock]
    simp only [List.getD_cons_succ, List.getD_cons_zero]
    unfold decode16le
    omega
  · rw [hblock]
    simp only [List.getD_cons_succ, List.getD_cons_zero]
    decide
  · rw [hblock]
    simp only [List.getD_cons_succ, List.getD_cons_zero]
    decide

/-- C7 witness: the graphic-control bytes at the default delay 0.1s. -/
theorem c7_amended_gce_bytes_witness :
    gceBlock (1/10) =
      [0x21, 0xF9, 0x04, 0x08] ++ pack16 (pyRound ((1/10) * 100)).toNat ++ [0x00, 0x00] ∧
    decode16le ((gceBlock (1/10)).getD 4 0) ((gceBlock (1/10)).getD 5 0) =
      (pyRound ((1/10) * 100)).toNat ∧
    gceDisposal ((gceBlock (1/10)).getD 3 0) = 2 ∧
    gceTransparency ((gceBlock (1/10)).getD 3 0) = 0 :=
  c7_amended_gce_bytes (1/10) (by rw [pyRound_default_delay]; norm_num)
    (by rw [pyRound_default_delay]; norm_num)

/-- C8 counterexample: the application-extension block the encoder writes is
19 bytes long, not 17. -/
theorem c8_counterexample : appExtBlock.length = 19 ∧ appExtBlock.length ≠ 17 :=
  ⟨rfl, by decide⟩

/-- C8 amended: after the global colour table and before any frame data the
encoder writes exactly one application-extension block, the fixed 19-byte
sequence made of the extension introducer, the NETSCAPE2.0 identifier, the
sub-block length, the loop-count field 0xFFFF and the block terminator. -/
theorem c8_amended_app_extension (f : FRaster) (fs : List FRaster) (d : ℚ) :
    appExtBlock =
      [0x21, 0xFF, 0x0B, 78, 69, 84, 83, 67, 65, 80, 69, 50, 46, 48,
       0x03, 0x01, 0xFF, 0xFF, 0x00] ∧
    appExtBlock.length = 19 ∧
    (build_animated_gif (f :: fs) d).1 =
      gifHeaderBytes (convertP f) ++ appExtBlock ++
        ((f :: fs).map convertP).flatMap (fun fr => gceBlock d ++ getdataBytes fr) ++
        [0x3B] :=
  ⟨rfl, rfl, rfl⟩

/-- C5: the encoder derives the palette from the first frame alone and
writes it exactly once, in the header, as a 256-entry global colour table;
each frame's data block carries a zero flags byte (no local colour table)
and its bytes do not depend on the frame's own palette; and every pixel
index of every converted frame is strictly below the global palette
length. -/
theorem c5_single_global_palette (f : FRaster) (fs : List FRaster) (d : ℚ) :
    (build_animated_gif (f :: fs) d).1 =
      gifHeaderBytes (convertP f) ++ appExtBlock ++
        ((f :: fs).map convertP).flatMap (fun fr => gceBlock d ++ getdataBytes fr) ++
        [0x3B] ∧
    (convertP f).pal.length = 256 ∧
    (∀ (im : PRaster) (pal : List (ℕ × ℕ × ℕ)), getdataBytes (setPal im pal) = getdataBytes im) ∧
    (∀ im : PRaster, (getdataBytes im).getD 9 0 = 0) ∧
    (∀ (fr : FRaster), ∀ row ∈ (convertP fr).pix, ∀ p ∈ row, p < (convertP f).pal.length) := by
  refine ⟨rfl, ?_, fun im pal => rfl, fun im => rfl, ?_⟩
  · simp [convertP, grayPalette]
  · intro fr row hrow p hp
    have hpal : (convertP f).pal.length = 256 := by simp [convertP, grayPalette]
    rw [hpal]
    simp only [convertP, List.mem_map] at hrow
    obtain ⟨r, hr, hrw⟩ := hrow
    rw [← hrw] at hp
    simp only [List.mem_map] at hp
    obtain ⟨v, hv, hvp⟩ := hp
    rw [← hvp]
    exact lt_of_le_of_lt (FV.toByte_le v) (by norm_num)

/-- C6 amended: the handler performs no parameter validation at all: no
request, however degenerate its width, height, iteration count or bounding
box, is ever answered with an InvalidParams failure; the only failures the
pipeline can surface are the zero-step ZeroDivisionError and
EmptyAnimation. -/
theorem c6_amended_no_validation (p : ReqParams) :
    (mandelbrotHandlerGet p).2 ≠ some AppError.invalidParams := by
  unfold mandelbrotHandlerGet
  cases hg : generate_mandelbrot_animation p with
  | error e =>
      have he : e = AppError.zeroDivisionError := by
        unfold generate_mandelbrot_animation arangeE at hg
        by_cases hs : p.step_z0 = 0
        · rw [if_pos hs] at hg
          cases hg
          rfl
        · rw [if_neg hs] at hg
          cases hg
      subst he
      simp
  | ok frames =>
      rcases build_animated_gif_snd frames (1/10) with h | h <;> rw [h] <;> decide

/-- C6 counterexample: a request with a nonpositive iteration count (zero)
is not rejected: no InvalidParams failure is surfaced, the pipeline renders
its frame and the encoder writes a nonempty byte stream. -/
theorem c6_counterexample :
    (mandelbrotHandlerGet paramsDegenerate).2 ≠ some AppError.invalidParams ∧
    (mandelbrotHandlerGet paramsDegenerate).2 = none ∧
    (mandelbrotHandlerGet paramsDegenerate).1 ≠ [] := by
  have hone : arangeQ 0 (0 + 1) 1 = [0] := by
    unfold arangeQ
    rw [show ((0 : ℚ) + 1 - 0) / 1 = ((1 : ℤ) : ℚ) by norm_num]
    rw [Int.ceil_intCast]
    rw [show ((1 : ℤ)).toNat = 1 from rfl]
    rw [show List.range 1 = [0] from rfl]
    simp
  have hg : generate_mandelbrot_animation paramsDegenerate =
      .ok [frameFn paramsDegenerate 0] := by
    unfold generate_mandelbrot_animation arangeE
    rw [show paramsDegenerate.step_z0 = 1 from rfl,
      show paramsDegenerate.start_z0 = 0 from rfl,
      show paramsDegenerate.end_z0 = 0 from rfl]
    rw [if_neg (by norm_num : ¬ ((1 : ℚ) = 0))]
    rw [hone]
    rfl
  have hh : mandelbrotHandlerGet paramsDegenerate =
      build_animated_gif [frameFn paramsDegenerate 0] (1/10) := by
    unfold mandelbrotHandlerGet
    rw [hg]
  have h2 : (build_animated_gif [frameFn paramsDegenerate 0] (1/10)).2 = none := rfl
  have h1 : (build_animated_gif [frameFn paramsDegenerate 0] (1/10)).1 ≠ [] :=
    List.cons_ne_nil _ _
  rw [hh]
  exact ⟨by rw [h2]; decide, h2, h1⟩

/-- C1 amended: draw_mandelbrot clamps nothing and maps no special value
to a sentinel; a pixel is a palette index in [0,255] exactly when its
smooth escape value lands there, which holds whenever the final iterate z
satisfies 10 <= 1 + abs z <= 10 ^ (2 ^ iterations), for a positive
iteration count. Outside this band the raster value can exceed 255 or be
an infinity, as the counterexample shows. -/
theorem c1_amended_band (w h : ℕ) (l r t b : ℚ) (it : ℤ) (z0 : ℚ) (i j : ℕ)
    (hit : 0 < it)
    (hlo : 10 ≤ 1 + qcAbs (drawZ w h l r t b it z0 i j))
    (hhi : 1 + qcAbs (drawZ w h l r t b it z0 i j) ≤ (10 : ℝ) ^ (2 ^ it.toNat)) :
    FV.inRange255 (mandelPixel w h l r t b it z0 i j) := by
  set A := 1 + qcAbs (drawZ w h l r t b it z0 i j) with hA
  have hApos : (0 : ℝ) < A := by linarith
  set L := Real.logb 10 A with hLdef
  have h10 : (1 : ℝ) < 10 := by norm_num
  have hL1 : 1 ≤ L := by
    rw [hLdef]
    rw [Real.le_logb_iff_rpow_le h10 hApos, Real.rpow_one]
    exact hlo
  have hLpos : 0 < L := by linarith
  have hitnat : ((it.toNat : ℕ) : ℝ) = (it : ℝ) := by
    have hh1 : ((it.toNat : ℕ) : ℤ) = it := Int.toNat_of_nonneg hit.le
    exact_mod_cast hh1
  have hLle : L ≤ ((2 : ℝ)) ^ ((it : ℝ)) := by
    have hcast : ((2 : ℝ)) ^ ((it : ℝ)) = (((2 ^ it.toNat : ℕ) : ℝ)) := by
      rw [← hitnat, Real.rpow_natCast]
      push_cast
      ring
    rw [hLdef, hcast]
    have hpow : A ≤ (10 : ℝ) ^ ((((2 ^ it.toNat : ℕ) : ℕ) : ℝ)) := by
      rw [Real.rpow_natCast]
      exact_mod_cast hhi
    calc Real.logb 10 A ≤ (((2 ^ it.toNat : ℕ) : ℕ) : ℝ) :=
          (Real.logb_le_iff_le_rpow h10 hApos).mpr hpow
      _ = (((2 ^ it.toNat : ℕ) : ℝ)) := by norm_num
  have hc0 : 0 ≤ Real.logb 2 L := Real.logb_nonneg one_lt_two hL1
  have hcle : Real.logb 2 L ≤ (it : ℝ) :=
    (Real.logb_le_iff_le_rpow one_lt_two hLpos).mpr hLle
  have hlog10 : log10v A = FV.fin L := by
    unfold log10v
    rw [if_neg (by linarith), if_neg (by intro hz; rw [hz] at hApos; linarith)]
  have hlog2 : FV.log2v (FV.fin L) = FV.fin (Real.logb 2 L) := by
    simp only [FV.log2v]
    rw [if_neg (by linarith : ¬ (L < 0)),
      if_neg (by intro hz; rw [hz] at hLpos; exact lt_irrefl 0 hLpos)]
  have hItR : (0 : ℝ) < (it : ℝ) := by exact_mod_cast hit
  unfold mandelPixel
  rw [← hA, hlog10, hlog2]
  rw [show FV.subI it (FV.fin (Real.logb 2 L)) = FV.fin ((it : ℝ) - Real.logb 2 L) from rfl]
  rw [show FV.floorF (FV.fin ((it : ℝ) - Real.logb 2 L)) =
    FV.fin ((⌊(it : ℝ) - Real.logb 2 L⌋ : ℤ) : ℝ) from rfl]
  rw [show FV.mul255 (FV.fin ((⌊(it : ℝ) - Real.logb 2 L⌋ : ℤ) : ℝ)) =
    FV.fin (255 * ((⌊(it : ℝ) - Real.logb 2 L⌋ : ℤ) : ℝ)) from rfl]
  have hdiv : FV.divI (FV.fin (255 * ((⌊(it : ℝ) - Real.logb 2 L⌋ : ℤ) : ℝ))) it =
      FV.fin (255 * ((⌊(it : ℝ) - Real.logb 2 L⌋ : ℤ) : ℝ) / (it : ℝ)) := by
    simp only [FV.divI]
    rw [if_neg (by omega : ¬ (it = 0))]
  rw [hdiv]
  show 0 ≤ 255 * ((⌊(it : ℝ) - Real.logb 2 L⌋ : ℤ) : ℝ) / (it : ℝ) ∧
    255 * ((⌊(it : ℝ) - Real.logb 2 L⌋ : ℤ) : ℝ) / (it : ℝ) ≤ 255
  have hfl0 : (0 : ℤ) ≤ ⌊(it : ℝ) - Real.logb 2 L⌋ :=
    Int.floor_nonneg.mpr (by linarith)
  have hfl0R : (0 : ℝ) ≤ ((⌊(it : ℝ) - Real.logb 2 L⌋ : ℤ) : ℝ) := by exact_mod_cast hfl0
  have hflle : ((⌊(it : ℝ) - Real.logb 2 L⌋ : ℤ) : ℝ) ≤ (it : ℝ) :=
    le_trans (Int.floor_le _) (by linarith)
  constructor
  · positivity
  · rw [div_le_iff₀ hItR]
    nlinarith

/-- C1 witness: a one-pixel frame with c = 9 and seed 0 after one iteration
has final z = 9, so 1 + abs z = 10 lies in the band and the pixel is the
in-range palette index 255. -/
theorem c1_amended_band_witness :
    FV.inRange255 (mandelPixel 1 1 9 9 0 0 1 0 0 0) := by
  have hz : drawZ 1 1 9 9 0 0 1 0 0 0 = ((9 : ℚ), (0 : ℚ)) := by
    unfold drawZ zLoop
    rw [show (1 : ℤ).toNat = 1 from rfl, show List.range 1 = [0] from rfl]
    simp [cGrid, linspace, qcMul, qcAdd]
  have habs : qcAbs ((9 : ℚ), (0 : ℚ)) = 9 := by
    unfold qcAbs
    push_cast
    rw [show ((9 : ℝ) ^ 2 + 0 ^ 2) = 81 by norm_num]
    rw [show (81 : ℝ) = 9 ^ 2 by norm_num]
    exact Real.sqrt_sq (by norm_num)
  exact c1_amended_band 1 1 9 9 0 0 1 0 0 0 (by norm_num)
    (by rw [hz, habs]; norm_num)
    (by rw [hz, habs, show (1 : ℤ).toNat = 1 from rfl]; norm_num)
